import Mathlib

/-!
Verification of the helmt chart-processing pipeline (pkg/helmt/helmt.go).

The Go code is shallowly embedded: pure argument-list construction is
translated to Lean functions over `String`/`List String`; the external
stages (file read + YAML parse, subprocess execution, temp-directory
creation, directory listing) are supplied as an environment of outcomes,
and `HelmTemplate`'s control flow is translated to a function of that
environment that also records the trace of external calls it performs.
The filesystem operated on by `generateKustomizationCommand` and
`removeOutputCommand` is modelled as a tree of named files/directories
whose entry lists stand for the lexically sorted listings that
`os.ReadDir`/`filepath.Walk` return.  The credential-redacting logger of
`execCommand` is modelled at the character level.
-/

namespace Helmt

/-- Errors flowing through the pipeline.  `lib` stands for an opaque error
value produced by an external call (file read, YAML parse, subprocess,
filesystem); `validation` is the error returned by `validate.Struct`;
`msg` is an error built with `fmt.Errorf` in the source. -/
inductive GoError where
  | lib (tag : String) : GoError
  | validation : GoError
  | msg (s : String) : GoError
deriving DecidableEq, Repr

/-- Rendering of an error as text, used where the source interpolates an
error with `%v` into `fmt.Errorf`. -/
def errText : GoError → String
  | .lib tag => tag
  | .validation => "validation error"
  | .msg s => s

/-- `PostProcess` struct of helmt.go. -/
structure PostProcess where
  GenerateKustomization : Bool
deriving DecidableEq, Repr

/-- `HelmChart` struct of helmt.go.  The four fields `Chart`, `Version`,
`Repository`, `Name` carry the `validate:"required"` tag. -/
structure HelmChart where
  Chart : String
  Version : String
  Repository : String
  Name : String
  Namespace : String
  Values : List String
  SkipCRDs : Bool
  PostProcess : PostProcess
  OutputDir : String
  ApiVersions : List String
deriving DecidableEq, Repr

/-- Modelled from the library behaviour declared by the struct tags:
`validate.Struct` checks the `validate:"required"` tags of `HelmChart`,
and for a string field `required` means non-empty.  The other fields
carry no validation tag. -/
def validateStruct (c : HelmChart) : Bool :=
  c.Chart != "" && c.Version != "" && c.Repository != "" && c.Name != ""

/-- One external action performed by the pipeline: `readParams` is the
descriptor read in `readParameters`; `exec` is an invocation of the
process runner `execCommand` (command name and argument list);
`removeOut` is `removeOutputCommand`; `genKustomization` is
`generateKustomizationCommand` with its target directory. -/
inductive Call where
  | readParams (filename : String) : Call
  | exec (name : String) (args : List String) : Call
  | removeOut (chartName : String) : Call
  | genKustomization (directory : String) : Call
deriving DecidableEq, Repr

/-- Outcomes of the external collaborators for one pipeline run:
`parseResult` is the combined outcome of `ioutil.ReadFile` + YAML
unmarshalling of the descriptor; `versionExec` the outcome of
`execute("helm", "version")`; `tempDirResult` of `os.MkdirTemp`;
`fetchExec` of `execute("helm", fetch-args)`; `dirContent` of
`os.ReadDir` on the given directory; `removeResult` of `os.RemoveAll`;
`templateExec` of `execute("helm", template-args)`; `genResult` of
`generateKustomizationCommand` on the given directory. -/
structure Env where
  parseResult : Except GoError HelmChart
  versionExec : Except GoError Unit
  tempDirResult : Except GoError String
  fetchExec : List String → Except GoError Unit
  dirContent : String → Except GoError (List String)
  removeResult : Except GoError Unit
  templateExec : List String → Except GoError Unit
  genResult : String → Except GoError Unit

/-- `readParameters`: parse the descriptor, then validate it.  The file
read and YAML decode are the environment's `parseResult`; the
`validate.Struct` call is `validateStruct`. -/
def readParameters (env : Env) : Except GoError HelmChart :=
  match env.parseResult with
  | .error e => .error e
  | .ok chart =>
    if validateStruct chart then .ok chart else .error .validation

/-- Argument list built by `fetch` in helmt.go:
`fetch, --repo R, --version V, --destination D, [--username U],
[--password P], chart`. -/
def fetchArgs (repository version d username password chart : String) :
    List String :=
  ["fetch"] ++ ["--repo", repository] ++ ["--version", version]
    ++ ["--destination", d]
    ++ (if username ≠ "" then ["--username", username] else [])
    ++ (if password ≠ "" then ["--password", password] else [])
    ++ [chart]

/-- Argument list built by `template` in helmt.go, mirroring its
append sequence: positional subcommand/name/chart, `--namespace` when
non-empty, `--include-crds` unless `skipCRDs`, `--skip-tests`, one
`--values` pair per values file (a fold mirroring the range loop),
`--output-dir` (defaulting to `.`), and one `--api-versions` pair per
entry when the list is non-empty. -/
def templateArgs (name chart : String) (values : List String)
    (nspace : String) (skipCRDs : Bool) (outputDir : String)
    (apiVersions : List String) : List String :=
  let args := ["template", name, chart]
  let args := if 0 < nspace.length then args ++ ["--namespace", nspace] else args
  let args := if !skipCRDs then args ++ ["--include-crds"] else args
  let args := args ++ ["--skip-tests"]
  let args := values.foldl (fun a vf => a ++ ["--values", vf]) args
  let args := if 0 < outputDir.length then args ++ ["--output-dir", outputDir]
              else args ++ ["--output-dir", "."]
  let args := if 0 < apiVersions.length then
                apiVersions.foldl (fun a v => a ++ ["--api-versions", v]) args
              else args
  args

/-- Models `filepath.Join` on the inputs used by `fetch`: a clean
non-empty directory path and a plain file name. -/
def pathJoin (d f : String) : String := d ++ "/" ++ f

/-- `fetch` in helmt.go: create a temp directory (wrapping its error with
`fmt.Errorf`), run `helm fetch`, list the directory, require exactly one
entry and return the joined path.  Also returns the `execCommand`
invocations performed. -/
def fetchRun (env : Env) (repository chart version username password : String) :
    Except GoError String × List Call :=
  match env.tempDirResult with
  | .error e =>
      (.error (.msg ("failed to create temporary directory to download helm chart: "
        ++ errText e)), [])
  | .ok d =>
    let args := fetchArgs repository version d username password chart
    match env.fetchExec args with
    | .error e => (.error e, [.exec "helm" args])
    | .ok _ =>
      match env.dirContent d with
      | .error e => (.error e, [.exec "helm" args])
      | .ok content =>
        if h : content.length = 1 then
          (.ok (pathJoin d (content.get ⟨0, by omega⟩)), [.exec "helm" args])
        else
          (.error (.msg ("unexpected content in temporary directory " ++ d)),
            [.exec "helm" args])

/-- The render argument list for a validated chart and fetched artifact,
exactly as `HelmTemplate` passes the chart's fields to `template`. -/
def chartTemplateArgs (chart : HelmChart) (chartFile : String) : List String :=
  templateArgs chart.Name chartFile chart.Values chart.Namespace
    chart.SkipCRDs chart.OutputDir chart.ApiVersions

/-- Tail of `HelmTemplate` after the optional clean: the `template`
invocation followed by the optional kustomization generation. -/
def helmTemplateRest (env : Env) (chart : HelmChart) (chartFile : String)
    (calls : List Call) : Except GoError Unit × List Call :=
  let targs := chartTemplateArgs chart chartFile
  match env.templateExec targs with
  | .error e => (.error e, calls ++ [.exec "helm" targs])
  | .ok _ =>
    if chart.PostProcess.GenerateKustomization then
      match env.genResult chart.Chart with
      | .error e =>
          (.error e, calls ++ [.exec "helm" targs, .genKustomization chart.Chart])
      | .ok _ =>
          (.ok (), calls ++ [.exec "helm" targs, .genKustomization chart.Chart])
    else (.ok (), calls ++ [.exec "helm" targs])

/-- `HelmTemplate` in helmt.go: load/validate the descriptor, probe the
helm version, fetch the chart, optionally clean the output folder,
render, and optionally generate the kustomization.  Returns the result
together with the trace of external actions. -/
def helmTemplateRun (env : Env) (filename : String) (clean : Bool)
    (username password : String) : Except GoError Unit × List Call :=
  match readParameters env with
  | .error e => (.error e, [.readParams filename])
  | .ok chart =>
    match env.versionExec with
    | .error e => (.error e, [.readParams filename, .exec "helm" ["version"]])
    | .ok _ =>
      let fr := fetchRun env chart.Repository chart.Chart chart.Version
          username password
      let calls0 := [Call.readParams filename, Call.exec "helm" ["version"]] ++ fr.2
      match fr.1 with
      | .error e => (.error e, calls0)
      | .ok chartFile =>
        if clean then
          match env.removeResult with
          | .error e => (.error e, calls0 ++ [.removeOut chart.Chart])
          | .ok _ =>
              helmTemplateRest env chart chartFile (calls0 ++ [.removeOut chart.Chart])
        else
          helmTemplateRest env chart chartFile calls0

/-! ## Filesystem model

A directory is modelled as the list of its entries in the order
`os.ReadDir`/`filepath.Walk` produce them (lexically sorted by name);
each entry is a regular file with contents or a subdirectory. -/

/-- A filesystem entry: a regular file with its contents, or a
directory with its (sorted) entry list. -/
inductive FsTree where
  | file (name : String) (content : String) : FsTree
  | dir (name : String) (entries : List FsTree) : FsTree

/-- Name of an entry. -/
def FsTree.name : FsTree → String
  | .file n _ => n
  | .dir n _ => n

/-- Whether an entry is a regular file with the given name. -/
def FsTree.isFileNamed (n : String) : FsTree → Bool
  | .file m _ => m == n
  | .dir _ _ => false

/-- Relative-path join as produced by `filepath.Rel` during the walk:
the empty prefix denotes the walk root. -/
def joinRel (p n : String) : String := if p = "" then n else p ++ "/" ++ n

/-- The regular files visited by `filepath.Walk`, as paths relative to
the walk root, in walk order (the callback skips directory entries
themselves).  `p` is the relative path of the directory being walked. -/
def walkDir (p : String) : List FsTree → List String
  | [] => []
  | .file n _ :: rest => joinRel p n :: walkDir p rest
  | .dir n es :: rest => walkDir (joinRel p n) es ++ walkDir p rest

/-- Insertion keeping the entry list sorted by name, for a newly created
directory entry. -/
def insertSorted (x : FsTree) : List FsTree → List FsTree
  | [] => [x]
  | y :: rest => if x.name ≤ y.name then x :: y :: rest else y :: insertSorted x rest

/-- Replace the contents of a regular file named `n` (other entries,
including directories, are untouched). -/
def overwriteFile (n c : String) : FsTree → FsTree
  | .file m cc => if m = n then .file m c else .file m cc
  | .dir m es => .dir m es

/-- Models `os.Create` + writing `c`: truncate/overwrite an existing
regular file named `n`, or add a new directory entry at its sorted
position. -/
def createFile (entries : List FsTree) (n c : String) : List FsTree :=
  if entries.any (fun e => e.isFileNamed n) then
    entries.map (overwriteFile n c)
  else
    insertSorted (.file n c) entries

/-- First regular file named `n` among the entries, with its contents. -/
def findFile (entries : List FsTree) (n : String) : Option String :=
  match entries with
  | [] => none
  | .file m c :: rest => if m = n then some c else findFile rest n
  | .dir _ _ :: rest => findFile rest n

/-- The fixed header written by `generateKustomizationCommand`. -/
def kustHeader : String :=
  "apiVersion: kustomize.config.k8s.io/v1beta1\nkind: Kustomization\nresources:\n"

/-- One resource line, `fmt.Sprintf("  - %s\n", rel)`. -/
def resourceLine (rel : String) : String := "  - " ++ rel ++ "\n"

/-- `generateKustomizationCommand` on the directory whose entries are
given: create `kustomization.yaml` (so the subsequent walk sees it),
then walk the tree and append one resource line per regular file whose
relative path is not `kustomization.yaml`.  Returns the written contents
and the resulting directory. -/
def generateKustomizationFs (entries : List FsTree) : String × List FsTree :=
  let created := createFile entries "kustomization.yaml" ""
  let files := walkDir "" created
  let content := kustHeader
    ++ String.join ((files.filter (fun r => r != "kustomization.yaml")).map resourceLine)
  (content, createFile created "kustomization.yaml" content)

/-- `removeOutputCommand`: `os.RemoveAll(chart.Chart)` on the working
directory — removes the entry (file or directory tree) with that name;
removing a non-existent path is a successful no-op. -/
def removeOutputFs (cwd : List FsTree) (chartName : String) : List FsTree :=
  cwd.filter (fun e => e.name != chartName)

/-! ## The credential-redacting log line of `execCommand`

`execCommand` logs `name + " " + strings.ReplaceAll(strings.Join(arg, " "),
"--password "+secret, "--password *****")` where `secret` is the
configured password (`viper.GetString("password")`).  Strings are
modelled as `List Char`. -/

/-- `strings.Join(args, " ")`. -/
def joinSpace : List (List Char) → List Char
  | [] => []
  | [a] => a
  | a :: rest => a ++ ' ' :: joinSpace rest

/-- Fuel-indexed body of `strings.ReplaceAll` for a non-empty pattern:
left-to-right, non-overlapping replacement.  The fuel only forces
termination; `goReplaceAll` supplies enough of it. -/
def goReplaceAllFuel : Nat → List Char → List Char → List Char → List Char
  | 0, _, _, _ => []
  | _ + 1, [], _, _ => []
  | fuel + 1, c :: rest, old, new =>
    if old <+: c :: rest then
      new ++ goReplaceAllFuel fuel ((c :: rest).drop old.length) old new
    else
      c :: goReplaceAllFuel fuel rest old new

/-- `strings.ReplaceAll(s, old, new)`: for an empty pattern Go inserts
`new` before every character and at the end; otherwise all
non-overlapping occurrences are replaced left to right. -/
def goReplaceAll (s old new : List Char) : List Char :=
  if old.isEmpty then new ++ s.flatMap (fun c => c :: new)
  else goReplaceAllFuel (s.length + 1) s old new

/-- The 11-character prefix `--password ` of the redaction pattern. -/
def pwFlag : List Char := ("--password ").data

/-- The fixed replacement `--password *****`. -/
def maskL : List Char := ("--password *****").data

/-- The log line emitted by `execCommand` for command `name`, argument
list `args`, and configured password `secret`: the joined arguments with
every occurrence of `--password <secret>` replaced by
`--password *****`, prefixed by the command name. -/
def execLog (name : List Char) (args : List (List Char)) (secret : List Char) :
    List Char :=
  name ++ ' ' :: goReplaceAll (joinSpace args) (pwFlag ++ secret) maskL

/-! ## Concrete instances used to instantiate theorems -/

/-- A concrete valid chart descriptor (the spec's end-to-end example). -/
def chartOk : HelmChart :=
  { Chart := "nginx", Version := "1.2.3", Repository := "https://example/charts",
    Name := "web", Namespace := "", Values := [], SkipCRDs := false,
    PostProcess := ⟨false⟩, OutputDir := "", ApiVersions := [] }

/-- A concrete environment in which every external stage succeeds and the
fetch stages exactly one artifact. -/
def envOk : Env :=
  { parseResult := .ok chartOk, versionExec := .ok (),
    tempDirResult := .ok "/tmp/helmt", fetchExec := fun _ => .ok (),
    dirContent := fun _ => .ok ["nginx-1.2.3.tgz"], removeResult := .ok (),
    templateExec := fun _ => .ok (), genResult := fun _ => .ok () }

/-- Like `envOk`, but the fetch stages no artifact at all. -/
def envBadContent : Env :=
  { envOk with dirContent := fun _ => .ok [] }

/-- Like `envOk`, but the parsed descriptor has an empty `version`. -/
def envEmptyVersion : Env :=
  { envOk with parseResult := .ok { chartOk with Version := "" } }

/-- A chart descriptor requesting kustomization generation into a custom
output directory different from the chart name. -/
def chartGen : HelmChart :=
  { chartOk with PostProcess := ⟨true⟩, OutputDir := "out" }

/-- Like `envOk`, but the parsed descriptor is `chartGen`. -/
def envGen : Env :=
  { envOk with parseResult := .ok chartGen }

/-! ## Helper lemmas -/

theorem string_pos_iff (s : String) : 0 < s.length ↔ s ≠ "" := by
  constructor
  · intro h he
    subst he
    exact absurd h (by decide)
  · intro h
    by_contra hle
    have h0 : s.length = 0 := by omega
    apply h
    cases s with
    | mk d =>
      cases d with
      | nil => rfl
      | cons c cs => simp [String.length] at h0

theorem foldl_append_pair (pre : String) (l : List String) :
    ∀ init : List String,
      l.foldl (fun a x => a ++ [pre, x]) init = init ++ l.flatMap (fun x => [pre, x]) := by
  induction l with
  | nil => intro init; simp
  | cons x xs ih =>
    intro init
    simp only [List.foldl_cons, ih, List.flatMap_cons, List.append_assoc]

/-! ## C4: the render argument list -/

/-- C4: for every input, the render argument list built by `template` is
exactly, in order: the `template` subcommand, name, chart path;
`--namespace <ns>` iff the namespace is non-empty; `--include-crds` iff
`skipCRDs` is false; the fixed `--skip-tests` flag; one `--values <f>`
pair per values entry in order; `--output-dir <dir>` with `<dir>` the
output directory if non-empty else `.`; and one `--api-versions <v>`
pair per entry in order. -/
theorem templateArgs_structure (name chart : String) (values : List String)
    (nspace : String) (skipCRDs : Bool) (outputDir : String)
    (apiVersions : List String) :
    templateArgs name chart values nspace skipCRDs outputDir apiVersions =
      ["template", name, chart]
      ++ (if nspace ≠ "" then ["--namespace", nspace] else [])
      ++ (if skipCRDs then [] else ["--include-crds"])
      ++ ["--skip-tests"]
      ++ values.flatMap (fun f => ["--values", f])
      ++ ["--output-dir", if outputDir ≠ "" then outputDir else "."]
      ++ apiVersions.flatMap (fun v => ["--api-versions", v]) := by
  simp only [templateArgs, foldl_append_pair]
  by_cases hn : nspace = "" <;> by_cases ho : outputDir = "" <;>
    cases skipCRDs <;> cases apiVersions <;>
      simp [hn, ho, string_pos_iff, foldl_append_pair, List.append_assoc]

/-! ## C7: the fetch argument list -/

theorem infix_cons_split {α : Type} {l : List α} {c : α} {t : List α}
    (h : l <:+: c :: t) : l <+: c :: t ∨ l <:+: t := by
  obtain ⟨p, q, hpq⟩ := h
  cases p with
  | nil => exact Or.inl ⟨q, by simpa using hpq⟩
  | cons p0 p' =>
    right
    refine ⟨p', q, ?_⟩
    simp only [List.cons_append] at hpq
    injection hpq with _ h2

theorem pair_infix_iff {α : Type} (x y : α) :
    ∀ l : List α, [x, y] <:+: l ↔ (x, y) ∈ l.zip l.tail := by
  intro l
  induction l with
  | nil =>
    constructor
    · rintro ⟨s, t, h⟩
      simp at h
    · intro h
      simp at h
  | cons a t ih =>
    cases t with
    | nil =>
      constructor
      · intro h
        have hl := h.length_le
        simp at hl
      · intro h
        simp [List.zip] at h
    | cons b t' =>
      constructor
      · intro h
        rcases infix_cons_split h with hp | hi
        · rw [List.cons_prefix_cons] at hp
          obtain ⟨hx, hp2⟩ := hp
          rw [List.cons_prefix_cons] at hp2
          obtain ⟨hy, _⟩ := hp2
          subst hx
          subst hy
          simp
        · have hm := ih.mp hi
          simp only [List.tail_cons] at hm ⊢
          simp only [List.zip_cons_cons]
          exact List.mem_cons.mpr (Or.inr hm)
      · intro hm
        simp only [List.tail_cons, List.zip_cons_cons] at hm
        rcases List.mem_cons.mp hm with heq | hm2
        · injection heq with hx hy
          subst hx
          subst hy
          exact ⟨[], t', by simp⟩
        · have := ih.mpr (by simpa using hm2)
          obtain ⟨s, u, hsu⟩ := this
          exact ⟨a :: s, u, by simp [← hsu]⟩

/-- C7: for every fetch input, the fetch argument list contains the
adjacent pairs `--repo <repository>`, `--version <version>`,
`--destination <tempdir>`; it contains `--username <u>` iff the username
is non-empty and `--password <p>` iff the password is non-empty (for any
non-empty chart identifier); and it ends with the chart identifier. -/
theorem fetchArgs_contract (repository version d username password chart : String)
    (hc : chart ≠ "") :
    ["--repo", repository] <:+: fetchArgs repository version d username password chart
    ∧ ["--version", version] <:+: fetchArgs repository version d username password chart
    ∧ ["--destination", d] <:+: fetchArgs repository version d username password chart
    ∧ (["--username", username] <:+: fetchArgs repository version d username password chart
        ↔ username ≠ "")
    ∧ (["--password", password] <:+: fetchArgs repository version d username password chart
        ↔ password ≠ "")
    ∧ (fetchArgs repository version d username password chart).getLast? = some chart := by
  have hlast : (fetchArgs repository version d username password chart).getLast?
      = some chart := by
    simp only [fetchArgs]
    rw [List.getLast?_concat]
  refine ⟨?_, ?_, ?_, ?_, ?_, hlast⟩ <;>
    by_cases hu : username = "" <;> by_cases hp : password = "" <;>
      simp [fetchArgs, pair_infix_iff, hu, hp, hc, Ne.symm hc, eq_comm]

/-- Witness for C7 at a concrete fetch input. -/
theorem fetchArgs_contract_witness :
    ("chart" : String) ≠ ""
    ∧ (["--repo", "repo"] <:+: fetchArgs "repo" "1.0" "/tmp/x" "user" "pass" "chart"
      ∧ ["--version", "1.0"] <:+: fetchArgs "repo" "1.0" "/tmp/x" "user" "pass" "chart"
      ∧ ["--destination", "/tmp/x"] <:+: fetchArgs "repo" "1.0" "/tmp/x" "user" "pass" "chart"
      ∧ (["--username", "user"] <:+: fetchArgs "repo" "1.0" "/tmp/x" "user" "pass" "chart"
          ↔ ("user" : String) ≠ "")
      ∧ (["--password", "pass"] <:+: fetchArgs "repo" "1.0" "/tmp/x" "user" "pass" "chart"
          ↔ ("pass" : String) ≠ "")
      ∧ (fetchArgs "repo" "1.0" "/tmp/x" "user" "pass" "chart").getLast? = some "chart") :=
  ⟨by decide, fetchArgs_contract "repo" "1.0" "/tmp/x" "user" "pass" "chart" (by decide)⟩

/-! ## C8: the clean stage -/

theorem mem_helmTemplateRest_calls (env : Env) (chart : HelmChart)
    (chartFile : String) (calls : List Call) (x : Call) (hx : x ∈ calls) :
    x ∈ (helmTemplateRest env chart chartFile calls).2 := by
  rcases htv : env.templateExec (chartTemplateArgs chart chartFile) with e | u
  · simp only [helmTemplateRest, htv]
    simp
    exact Or.inl hx
  · by_cases hg : chart.PostProcess.GenerateKustomization
    · rcases hgen : env.genResult chart.Chart with e2 | u2 <;>
        · simp only [helmTemplateRest, htv, hg, hgen]
          simp
          exact Or.inl hx
    · simp only [helmTemplateRest, htv]
      simp only [Bool.not_eq_true] at hg
      simp [hg]
      exact Or.inl hx

/-- C8: when the clean flag is set (and the run reaches the clean stage),
the pipeline invokes the output lifecycle manager on the directory named
after the chart identifier; the removal model leaves no entry with that
name, removing a non-existent directory is a successful no-op, and the
removal is idempotent. -/
theorem removeOutput_clean :
    (∀ env f u p chart cf fc,
      readParameters env = .ok chart → env.versionExec = .ok () →
      fetchRun env chart.Repository chart.Chart chart.Version u p = (.ok cf, fc) →
      Call.removeOut chart.Chart ∈ (helmTemplateRun env f true u p).2)
    ∧ (∀ (cwd : List FsTree) (n : String) (e : FsTree),
        e ∈ removeOutputFs cwd n → e.name ≠ n)
    ∧ (∀ (cwd : List FsTree) (n : String),
        (∀ e ∈ cwd, e.name ≠ n) → removeOutputFs cwd n = cwd)
    ∧ (∀ (cwd : List FsTree) (n : String),
        removeOutputFs (removeOutputFs cwd n) n = removeOutputFs cwd n) := by
  refine ⟨?_, ?_, ?_, ?_⟩
  · intro env f u p chart cf fc h1 h2 h3
    simp only [helmTemplateRun, h1, h2, h3, if_true]
    rcases hr : env.removeResult with e | u
    · simp
    · exact mem_helmTemplateRest_calls _ _ _ _ _ (by simp)
  · intro cwd n e he
    have := List.mem_filter.mp he
    simpa using this.2
  · intro cwd n h
    refine List.filter_eq_self.mpr ?_
    intro e he
    simpa using h e he
  · intro cwd n
    simp [removeOutputFs, List.filter_filter]

/-- Witness for C8: a concrete successful run with the clean flag records
the removal of the chart-named directory, and removal on a concrete
directory without that entry is the identity. -/
theorem removeOutput_clean_witness :
    (readParameters envOk = .ok chartOk
      ∧ Call.removeOut "nginx" ∈ (helmTemplateRun envOk "chart.yaml" true "u" "p").2)
    ∧ ((∀ e ∈ [FsTree.file "a.yaml" "x"], FsTree.name e ≠ "nginx")
      ∧ removeOutputFs [FsTree.file "a.yaml" "x"] "nginx" = [FsTree.file "a.yaml" "x"]) :=
  ⟨⟨rfl, removeOutput_clean.1 envOk "chart.yaml" "u" "p" chartOk
      "/tmp/helmt/nginx-1.2.3.tgz" [.exec "helm"
        (fetchArgs "https://example/charts" "1.2.3" "/tmp/helmt" "u" "p" "nginx")]
      rfl rfl rfl⟩,
   ⟨by intro e he; simp at he; subst he; decide,
    removeOutput_clean.2.2.1 [FsTree.file "a.yaml" "x"] "nginx"
      (by intro e he; simp at he; subst he; decide)⟩⟩

/-! ## C3: required-field validation -/

/-- C3: for every descriptor whose parse succeeds, if any of the fields
chart, version, repository, name is empty (a missing YAML key parses to
the empty string), `readParameters` fails with the validation error and
the pipeline run performs only the descriptor read — it never reaches
the fetch stage; if all four fields are non-empty, `readParameters`
returns the parsed chart spec. -/
theorem readParameters_required (env : Env) (chart : HelmChart)
    (hparse : env.parseResult = .ok chart) :
    ((chart.Chart = "" ∨ chart.Version = "" ∨ chart.Repository = "" ∨ chart.Name = "") →
      readParameters env = .error .validation
      ∧ ∀ f clean u p, (helmTemplateRun env f clean u p).2 = [.readParams f])
    ∧ ((chart.Chart ≠ "" ∧ chart.Version ≠ "" ∧ chart.Repository ≠ "" ∧ chart.Name ≠ "") →
      readParameters env = .ok chart) := by
  constructor
  · intro hempty
    have hv : validateStruct chart = false := by
      rcases hempty with h | h | h | h <;> simp [validateStruct, h]
    have hrp : readParameters env = .error .validation := by
      simp [readParameters, hparse, hv]
    refine ⟨hrp, ?_⟩
    intro f clean u p
    simp [helmTemplateRun, hrp]
  · rintro ⟨h1, h2, h3, h4⟩
    have hv : validateStruct chart = true := by
      simp [validateStruct, h1, h2, h3, h4]
    simp [readParameters, hparse, hv]

/-- Witness for C3: an empty `version` is rejected and stops the run at
the descriptor read, while the fully populated descriptor is accepted. -/
theorem readParameters_required_witness :
    ({ chartOk with Version := "" }).Version = ""
    ∧ readParameters envEmptyVersion = .error .validation
    ∧ (helmTemplateRun envEmptyVersion "chart.yaml" false "u" "p").2
        = [.readParams "chart.yaml"]
    ∧ readParameters envOk = .ok chartOk :=
  ⟨rfl,
   ((readParameters_required envEmptyVersion { chartOk with Version := "" } rfl).1
      (Or.inr (Or.inl rfl))).1,
   ((readParameters_required envEmptyVersion { chartOk with Version := "" } rfl).1
      (Or.inr (Or.inl rfl))).2 "chart.yaml" false "u" "p",
   (readParameters_required envOk chartOk rfl).2 (by refine ⟨?_, ?_, ?_, ?_⟩ <;> decide)⟩

/-! ## C2: the exactly-one-artifact invariant of fetch -/

theorem fetchRun_bad_content (env : Env) (repo ch ver u p d : String)
    (content : List String)
    (htd : env.tempDirResult = .ok d)
    (hfe : env.fetchExec (fetchArgs repo ver d u p ch) = .ok ())
    (hdc : env.dirContent d = .ok content)
    (hlen : content.length ≠ 1) :
    fetchRun env repo ch ver u p =
      (.error (.msg ("unexpected content in temporary directory " ++ d)),
        [.exec "helm" (fetchArgs repo ver d u p ch)]) := by
  simp [fetchRun, htd, hfe, hdc, hlen]

/-- C2: when the fetch subprocess succeeds, listing the temporary
directory with a number of entries different from one makes `fetch`
return the error naming the temporary directory and the pipeline's trace
stops at the fetch invocation — the render (`template`) stage is never
invoked; with exactly one entry, `fetch` returns the join of the
temporary directory and that entry's name. -/
theorem fetch_artifact_invariant :
    (∀ (env : Env) (repo ch ver u p d : String) (content : List String),
      env.tempDirResult = .ok d →
      env.fetchExec (fetchArgs repo ver d u p ch) = .ok () →
      env.dirContent d = .ok content →
      content.length ≠ 1 →
      (fetchRun env repo ch ver u p).1 =
        .error (.msg ("unexpected content in temporary directory " ++ d)))
    ∧ (∀ (env : Env) (repo ch ver u p d x : String),
      env.tempDirResult = .ok d →
      env.fetchExec (fetchArgs repo ver d u p ch) = .ok () →
      env.dirContent d = .ok [x] →
      (fetchRun env repo ch ver u p).1 = .ok (pathJoin d x))
    ∧ (∀ (env : Env) (f : String) (clean : Bool) (u p : String)
        (chart : HelmChart) (d : String) (content : List String),
      readParameters env = .ok chart →
      env.versionExec = .ok () →
      env.tempDirResult = .ok d →
      env.fetchExec (fetchArgs chart.Repository chart.Version d u p chart.Chart) = .ok () →
      env.dirContent d = .ok content →
      content.length ≠ 1 →
      (helmTemplateRun env f clean u p).2 =
        [.readParams f, .exec "helm" ["version"],
          .exec "helm" (fetchArgs chart.Repository chart.Version d u p chart.Chart)]
      ∧ ∀ targs, Call.exec "helm" ("template" :: targs) ∉
          (helmTemplateRun env f clean u p).2) := by
  refine ⟨?_, ?_, ?_⟩
  · intro env repo ch ver u p d content htd hfe hdc hlen
    rw [fetchRun_bad_content env repo ch ver u p d content htd hfe hdc hlen]
  · intro env repo ch ver u p d x htd hfe hdc
    simp [fetchRun, htd, hfe, hdc]
  · intro env f clean u p chart d content h1 h2 htd hfe hdc hlen
    have hfr := fetchRun_bad_content env chart.Repository chart.Chart chart.Version
      u p d content htd hfe hdc hlen
    constructor
    · simp [helmTemplateRun, h1, h2, hfr]
    · intro targs
      simp [helmTemplateRun, h1, h2, hfr, fetchArgs]

/-- Witness for C2: a concrete environment staging zero artifacts fails
with the temp-directory error and stops before the render stage, while
`envOk` (one artifact) yields the joined path. -/
theorem fetch_artifact_invariant_witness :
    (fetchRun envBadContent "https://example/charts" "nginx" "1.2.3" "u" "p").1 =
      .error (.msg "unexpected content in temporary directory /tmp/helmt")
    ∧ (fetchRun envOk "https://example/charts" "nginx" "1.2.3" "u" "p").1 =
      .ok "/tmp/helmt/nginx-1.2.3.tgz"
    ∧ (helmTemplateRun envBadContent "chart.yaml" false "u" "p").2 =
        [.readParams "chart.yaml", .exec "helm" ["version"],
          .exec "helm" (fetchArgs "https://example/charts" "1.2.3" "/tmp/helmt" "u" "p" "nginx")] :=
  ⟨fetch_artifact_invariant.1 envBadContent "https://example/charts" "nginx" "1.2.3"
      "u" "p" "/tmp/helmt" [] rfl rfl rfl (by decide),
   fetch_artifact_invariant.2.1 envOk "https://example/charts" "nginx" "1.2.3"
      "u" "p" "/tmp/helmt" "nginx-1.2.3.tgz" rfl rfl rfl,
   (fetch_artifact_invariant.2.2 envBadContent "chart.yaml" false "u" "p" chartOk
      "/tmp/helmt" [] rfl rfl rfl rfl rfl (by decide)).1⟩

/-! ## C9: sequential fail-fast pipeline -/

theorem helmTemplateRest_template_error (env : Env) (chart : HelmChart)
    (chartFile : String) (calls : List Call) (e : GoError)
    (h : env.templateExec (chartTemplateArgs chart chartFile) = .error e) :
    helmTemplateRest env chart chartFile calls =
      (.error e, calls ++ [.exec "helm" (chartTemplateArgs chart chartFile)]) := by
  simp [helmTemplateRest, h]

theorem helmTemplateRest_no_gen (env : Env) (chart : HelmChart)
    (chartFile : String) (calls : List Call)
    (h : env.templateExec (chartTemplateArgs chart chartFile) = .ok ())
    (hg : chart.PostProcess.GenerateKustomization = false) :
    helmTemplateRest env chart chartFile calls =
      (.ok (), calls ++ [.exec "helm" (chartTemplateArgs chart chartFile)]) := by
  simp [helmTemplateRest, h, hg]

theorem helmTemplateRest_gen_error (env : Env) (chart : HelmChart)
    (chartFile : String) (calls : List Call) (e : GoError)
    (h : env.templateExec (chartTemplateArgs chart chartFile) = .ok ())
    (hg : chart.PostProcess.GenerateKustomization = true)
    (hge : env.genResult chart.Chart = .error e) :
    helmTemplateRest env chart chartFile calls =
      (.error e, calls ++ [.exec "helm" (chartTemplateArgs chart chartFile),
        .genKustomization chart.Chart]) := by
  simp [helmTemplateRest, h, hg, hge]

theorem helmTemplateRest_gen_ok (env : Env) (chart : HelmChart)
    (chartFile : String) (calls : List Call)
    (h : env.templateExec (chartTemplateArgs chart chartFile) = .ok ())
    (hg : chart.PostProcess.GenerateKustomization = true)
    (hge : env.genResult chart.Chart = .ok ()) :
    helmTemplateRest env chart chartFile calls =
      (.ok (), calls ++ [.exec "helm" (chartTemplateArgs chart chartFile),
        .genKustomization chart.Chart]) := by
  simp [helmTemplateRest, h, hg, hge]

theorem helmTemplateRun_to_rest (env : Env) (f : String) (clean : Bool)
    (u p : String) (chart : HelmChart) (cf : String) (fc : List Call)
    (h1 : readParameters env = .ok chart)
    (h2 : env.versionExec = .ok ())
    (h3 : fetchRun env chart.Repository chart.Chart chart.Version u p = (.ok cf, fc))
    (h4 : clean = true → env.removeResult = .ok ()) :
    helmTemplateRun env f clean u p =
      helmTemplateRest env chart cf
        ([.readParams f, .exec "helm" ["version"]] ++ fc
          ++ (if clean then [.removeOut chart.Chart] else [])) := by
  by_cases hcl : clean
  · simp [helmTemplateRun, h1, h2, h3, hcl, h4 hcl]
  · simp [helmTemplateRun, h1, h2, h3, hcl]

/-- C9: the pipeline runs load/validate, version probe, fetch, optional
clean, render, optional kustomization synthesis in this fixed order;
when a stage fails, no later stage's call appears in the trace and the
failing stage's error is returned unchanged; when all enabled stages
succeed the trace is exactly the enabled calls in order. -/
theorem helmTemplate_fail_fast :
    (∀ (env : Env) (f : String) (clean : Bool) (u p : String) (e : GoError),
      readParameters env = .error e →
      helmTemplateRun env f clean u p = (.error e, [.readParams f]))
    ∧ (∀ (env : Env) (f : String) (clean : Bool) (u p : String)
        (chart : HelmChart) (e : GoError),
      readParameters env = .ok chart →
      env.versionExec = .error e →
      helmTemplateRun env f clean u p =
        (.error e, [.readParams f, .exec "helm" ["version"]]))
    ∧ (∀ (env : Env) (f : String) (clean : Bool) (u p : String)
        (chart : HelmChart) (e : GoError) (fc : List Call),
      readParameters env = .ok chart →
      env.versionExec = .ok () →
      fetchRun env chart.Repository chart.Chart chart.Version u p = (.error e, fc) →
      helmTemplateRun env f clean u p =
        (.error e, [.readParams f, .exec "helm" ["version"]] ++ fc))
    ∧ (∀ (env : Env) (f : String) (u p : String) (chart : HelmChart)
        (cf : String) (fc : List Call) (e : GoError),
      readParameters env = .ok chart →
      env.versionExec = .ok () →
      fetchRun env chart.Repository chart.Chart chart.Version u p = (.ok cf, fc) →
      env.removeResult = .error e →
      helmTemplateRun env f true u p =
        (.error e, [.readParams f, .exec "helm" ["version"]] ++ fc
          ++ [.removeOut chart.Chart]))
    ∧ (∀ (env : Env) (f : String) (clean : Bool) (u p : String)
        (chart : HelmChart) (cf : String) (fc : List Call) (e : GoError),
      readParameters env = .ok chart →
      env.versionExec = .ok () →
      fetchRun env chart.Repository chart.Chart chart.Version u p = (.ok cf, fc) →
      (clean = true → env.removeResult = .ok ()) →
      env.templateExec (chartTemplateArgs chart cf) = .error e →
      helmTemplateRun env f clean u p =
        (.error e, [.readParams f, .exec "helm" ["version"]] ++ fc
          ++ (if clean then [.removeOut chart.Chart] else [])
          ++ [.exec "helm" (chartTemplateArgs chart cf)]))
    ∧ (∀ (env : Env) (f : String) (clean : Bool) (u p : String)
        (chart : HelmChart) (cf : String) (fc : List Call) (e : GoError),
      readParameters env = .ok chart →
      env.versionExec = .ok () →
      fetchRun env chart.Repository chart.Chart chart.Version u p = (.ok cf, fc) →
      (clean = true → env.removeResult = .ok ()) →
      env.templateExec (chartTemplateArgs chart cf) = .ok () →
      chart.PostProcess.GenerateKustomization = true →
      env.genResult chart.Chart = .error e →
      helmTemplateRun env f clean u p =
        (.error e, [.readParams f, .exec "helm" ["version"]] ++ fc
          ++ (if clean then [.removeOut chart.Chart] else [])
          ++ [.exec "helm" (chartTemplateArgs chart cf),
              .genKustomization chart.Chart]))
    ∧ (∀ (env : Env) (f : String) (clean : Bool) (u p : String)
        (chart : HelmChart) (cf : String) (fc : List Call),
      readParameters env = .ok chart →
      env.versionExec = .ok () →
      fetchRun env chart.Repository chart.Chart chart.Version u p = (.ok cf, fc) →
      (clean = true → env.removeResult = .ok ()) →
      env.templateExec (chartTemplateArgs chart cf) = .ok () →
      (chart.PostProcess.GenerateKustomization = true →
        env.genResult chart.Chart = .ok ()) →
      helmTemplateRun env f clean u p =
        (.ok (), [.readParams f, .exec "helm" ["version"]] ++ fc
          ++ (if clean then [.removeOut chart.Chart] else [])
          ++ [.exec "helm" (chartTemplateArgs chart cf)]
          ++ (if chart.PostProcess.GenerateKustomization then
                [.genKustomization chart.Chart] else []))) := by
  refine ⟨?_, ?_, ?_, ?_, ?_, ?_, ?_⟩
  · intro env f clean u p e h
    simp [helmTemplateRun, h]
  · intro env f clean u p chart e h1 h2
    simp [helmTemplateRun, h1, h2]
  · intro env f clean u p chart e fc h1 h2 h3
    simp [helmTemplateRun, h1, h2, h3]
  · intro env f u p chart cf fc e h1 h2 h3 h4
    simp [helmTemplateRun, h1, h2, h3, h4]
  · intro env f clean u p chart cf fc e h1 h2 h3 h4 h5
    rw [helmTemplateRun_to_rest env f clean u p chart cf fc h1 h2 h3 h4,
      helmTemplateRest_template_error env chart cf _ e h5]
  · intro env f clean u p chart cf fc e h1 h2 h3 h4 h5 h6 h7
    rw [helmTemplateRun_to_rest env f clean u p chart cf fc h1 h2 h3 h4,
      helmTemplateRest_gen_error env chart cf _ e h5 h6 h7]
  · intro env f clean u p chart cf fc h1 h2 h3 h4 h5 h6
    rw [helmTemplateRun_to_rest env f clean u p chart cf fc h1 h2 h3 h4]
    by_cases hg : chart.PostProcess.GenerateKustomization
    · rw [helmTemplateRest_gen_ok env chart cf _ h5 hg (h6 hg)]
      simp [hg]
    · rw [helmTemplateRest_no_gen env chart cf _ h5 (by simpa using hg)]
      simp [hg]

/-- Witness for C9: on `envOk` every stage succeeds and the trace is
exactly the enabled calls in order. -/
theorem helmTemplate_fail_fast_witness :
    readParameters envOk = .ok chartOk
    ∧ helmTemplateRun envOk "chart.yaml" false "u" "p" =
      (.ok (), [.readParams "chart.yaml", .exec "helm" ["version"],
        .exec "helm" (fetchArgs "https://example/charts" "1.2.3" "/tmp/helmt" "u" "p" "nginx"),
        .exec "helm" (chartTemplateArgs chartOk "/tmp/helmt/nginx-1.2.3.tgz")]) :=
  ⟨rfl, by
    have h := helmTemplate_fail_fast.2.2.2.2.2.2 envOk "chart.yaml" false "u" "p"
      chartOk "/tmp/helmt/nginx-1.2.3.tgz"
      [.exec "helm" (fetchArgs "https://example/charts" "1.2.3" "/tmp/helmt" "u" "p" "nginx")]
      rfl rfl rfl (fun h => nomatch h) rfl (fun h => nomatch h)
    simpa using h⟩

/-! ## C10: kustomization synthesis targets the chart-named directory -/

theorem fetchRun_calls_shape (env : Env) (r c v u p : String) :
    (fetchRun env r c v u p).2 = []
    ∨ ∃ args, (fetchRun env r c v u p).2 = [Call.exec "helm" args] := by
  rcases htd : env.tempDirResult with e | d
  · left
    simp [fetchRun, htd]
  · right
    refine ⟨fetchArgs r v d u p c, ?_⟩
    rcases hfe : env.fetchExec (fetchArgs r v d u p c) with e | x
    · simp [fetchRun, htd, hfe]
    · rcases hdc : env.dirContent d with e | content
      · simp [fetchRun, htd, hfe, hdc]
      · by_cases hl : content.length = 1
        · simp [fetchRun, htd, hfe, hdc, hl]
        · simp [fetchRun, htd, hfe, hdc, hl]

/-- C10: when the validated chart requests kustomization generation, the
pipeline invokes the synthesizer on the directory named by the chart
identifier; in particular, when the configured output directory differs
from the chart identifier, no synthesizer call on the output directory
ever appears in the trace. -/
theorem generateKustomization_target (env : Env) (f : String) (clean : Bool)
    (u p : String) (chart : HelmChart) (cf : String) (fc : List Call)
    (h1 : readParameters env = .ok chart)
    (h2 : env.versionExec = .ok ())
    (h3 : fetchRun env chart.Repository chart.Chart chart.Version u p = (.ok cf, fc))
    (h4 : clean = true → env.removeResult = .ok ())
    (h5 : env.templateExec (chartTemplateArgs chart cf) = .ok ())
    (h6 : chart.PostProcess.GenerateKustomization = true) :
    Call.genKustomization chart.Chart ∈ (helmTemplateRun env f clean u p).2
    ∧ (chart.OutputDir ≠ chart.Chart →
        Call.genKustomization chart.OutputDir ∉ (helmTemplateRun env f clean u p).2) := by
  have hshape := fetchRun_calls_shape env chart.Repository chart.Chart chart.Version u p
  rw [h3] at hshape
  rw [helmTemplateRun_to_rest env f clean u p chart cf fc h1 h2 h3 h4]
  rcases hge : env.genResult chart.Chart with e | v
  · rw [helmTemplateRest_gen_error env chart cf _ e h5 h6 hge]
    constructor
    · simp
    · intro hne
      rcases hshape with h0 | ⟨args, hargs⟩ <;>
        [subst h0; subst hargs] <;> by_cases hcl : clean <;> simp [hcl, hne]
  · rw [helmTemplateRest_gen_ok env chart cf _ h5 h6 hge]
    constructor
    · simp
    · intro hne
      rcases hshape with h0 | ⟨args, hargs⟩ <;>
        [subst h0; subst hargs] <;> by_cases hcl : clean <;> simp [hcl, hne]

/-- Witness for C10: on `envGen` (output directory `out`, chart `nginx`)
the synthesizer is invoked on `nginx` and never on `out`. -/
theorem generateKustomization_target_witness :
    Call.genKustomization "nginx" ∈ (helmTemplateRun envGen "chart.yaml" false "u" "p").2
    ∧ Call.genKustomization "out" ∉ (helmTemplateRun envGen "chart.yaml" false "u" "p").2 :=
  ⟨(generateKustomization_target envGen "chart.yaml" false "u" "p" chartGen
      "/tmp/helmt/nginx-1.2.3.tgz"
      [.exec "helm" (fetchArgs "https://example/charts" "1.2.3" "/tmp/helmt" "u" "p" "nginx")]
      rfl rfl rfl (fun h => nomatch h) rfl rfl).1,
   (generateKustomization_target envGen "chart.yaml" false "u" "p" chartGen
      "/tmp/helmt/nginx-1.2.3.tgz"
      [.exec "helm" (fetchArgs "https://example/charts" "1.2.3" "/tmp/helmt" "u" "p" "nginx")]
      rfl rfl rfl (fun h => nomatch h) rfl rfl).2 (by decide)⟩

/-! ## C5 and C6: kustomization synthesis -/

theorem walkDir_nil (p : String) : walkDir p [] = [] := by
  simp [walkDir]

theorem walkDir_cons_file (p n c : String) (rest : List FsTree) :
    walkDir p (.file n c :: rest) = joinRel p n :: walkDir p rest := by
  simp [walkDir]

theorem walkDir_cons_dir (p n : String) (es rest : List FsTree) :
    walkDir p (.dir n es :: rest) = walkDir (joinRel p n) es ++ walkDir p rest := by
  simp [walkDir]

theorem walkDir_append (p : String) (a b : List FsTree) :
    walkDir p (a ++ b) = walkDir p a ++ walkDir p b := by
  induction a with
  | nil => simp [walkDir_nil]
  | cons e rest ih =>
    cases e with
    | file n c => simp [walkDir_cons_file, ih]
    | dir n es => simp [walkDir_cons_dir, ih]

theorem walkDir_map_overwrite (p n c : String) (l : List FsTree) :
    walkDir p (l.map (overwriteFile n c)) = walkDir p l := by
  induction l with
  | nil => simp
  | cons e rest ih =>
    cases e with
    | file m cc =>
      by_cases hm : m = n <;>
        simp [overwriteFile, hm, walkDir_cons_file, ih]
    | dir m es => simp [overwriteFile, walkDir_cons_dir, ih]

theorem insertSorted_split (x : FsTree) (l : List FsTree) :
    ∃ a b, insertSorted x l = a ++ x :: b ∧ a ++ b = l := by
  induction l with
  | nil => exact ⟨[], [], rfl, rfl⟩
  | cons y rest ih =>
    by_cases hle : x.name ≤ y.name
    · exact ⟨[], y :: rest, by simp [insertSorted, hle], rfl⟩
    · obtain ⟨a, b, h1, h2⟩ := ih
      exact ⟨y :: a, b, by simp [insertSorted, hle, h1], by simp [h2]⟩

theorem filter_walkDir_createFile (l : List FsTree) (n c : String) :
    (walkDir "" (createFile l n c)).filter (fun r => r != n)
      = (walkDir "" l).filter (fun r => r != n) := by
  by_cases hany : l.any (fun e => e.isFileNamed n)
  · simp only [createFile, if_pos hany]
    rw [walkDir_map_overwrite]
  · simp only [createFile, if_neg hany]
    obtain ⟨a, b, h1, h2⟩ := insertSorted_split (.file n c) l
    rw [h1, ← h2]
    rw [show a ++ FsTree.file n c :: b = a ++ [FsTree.file n c] ++ b by simp]
    rw [walkDir_append, walkDir_append, walkDir_append]
    simp [List.filter_append, walkDir_cons_file, walkDir_nil, joinRel]

theorem createFile_hasFile (l : List FsTree) (n c : String) :
    (createFile l n c).any (fun e => e.isFileNamed n) = true := by
  by_cases hany : l.any (fun e => e.isFileNamed n)
  · simp only [createFile, if_pos hany]
    rw [List.any_eq_true] at hany ⊢
    obtain ⟨x, hx, hpx⟩ := hany
    refine ⟨overwriteFile n c x, List.mem_map_of_mem _ hx, ?_⟩
    cases x with
    | file m cc =>
      simp only [FsTree.isFileNamed, beq_iff_eq] at hpx
      simp [overwriteFile, hpx, FsTree.isFileNamed]
    | dir m es => simp [FsTree.isFileNamed] at hpx
  · simp only [createFile, if_neg hany]
    rw [List.any_eq_true]
    obtain ⟨a, b, h1, _⟩ := insertSorted_split (.file n c) l
    refine ⟨.file n c, ?_, by simp [FsTree.isFileNamed]⟩
    rw [h1]
    exact List.mem_append_right _ (List.mem_cons_self _ _)

theorem createFile_eq_map_of_any (l : List FsTree) (n c : String)
    (h : l.any (fun e => e.isFileNamed n) = true) :
    createFile l n c = l.map (overwriteFile n c) := by
  simp [createFile, h]

theorem overwrite_overwrite (n c1 c2 : String) (e : FsTree) :
    overwriteFile n c2 (overwriteFile n c1 e) = overwriteFile n c2 e := by
  cases e with
  | file m cc => by_cases hm : m = n <;> simp [overwriteFile, hm]
  | dir m es => simp [overwriteFile]

theorem findFile_map_overwrite (l : List FsTree) (n c : String)
    (h : l.any (fun e => e.isFileNamed n) = true) :
    findFile (l.map (overwriteFile n c)) n = some c := by
  induction l with
  | nil => simp at h
  | cons e rest ih =>
    cases e with
    | file m cc =>
      by_cases hm : m = n
      · simp [overwriteFile, hm, findFile]
      · simp only [List.any_cons, FsTree.isFileNamed, Bool.or_eq_true, beq_iff_eq] at h
        have h' : rest.any (fun e => e.isFileNamed n) = true := by
          rcases h with h | h
          · exact absurd h hm
          · exact h
        simp [overwriteFile, hm, findFile, ih h']
    | dir m es =>
      simp only [List.any_cons, FsTree.isFileNamed, Bool.or_eq_true] at h
      have h' : rest.any (fun e => e.isFileNamed n) = true := by
        rcases h with h | h
        · cases h
        · exact h
      simp [overwriteFile, findFile, ih h']

/-- C5: for every directory tree, the synthesizer's output file
`kustomization.yaml` consists of the fixed header followed by one line
per regular file of the tree in walk order — directories are not listed
and `kustomization.yaml` itself is excluded — and that file is written
into the given directory. -/
theorem generateKustomization_content (entries : List FsTree) :
    (generateKustomizationFs entries).1 =
      kustHeader ++ String.join (((walkDir "" entries).filter
        (fun r => r != "kustomization.yaml")).map resourceLine)
    ∧ findFile (generateKustomizationFs entries).2 "kustomization.yaml" =
        some ((generateKustomizationFs entries).1) := by
  constructor
  · simp only [generateKustomizationFs]
    rw [filter_walkDir_createFile]
  · simp only [generateKustomizationFs]
    rw [createFile_eq_map_of_any _ _ _
      (createFile_hasFile entries "kustomization.yaml" "")]
    exact findFile_map_overwrite _ _ _
      (createFile_hasFile entries "kustomization.yaml" "")

theorem createFile_createFile (l : List FsTree) (n c1 c2 : String)
    (h : l.any (fun e => e.isFileNamed n) = true) :
    createFile (createFile l n c1) n c2 = createFile l n c2 := by
  have h1 : createFile l n c1 = l.map (overwriteFile n c1) :=
    createFile_eq_map_of_any l n c1 h
  have hmapany : (l.map (overwriteFile n c1)).any
      (fun e => e.isFileNamed n) = true := by
    rw [← h1]
    exact createFile_hasFile l n c1
  rw [h1, createFile_eq_map_of_any (l.map (overwriteFile n c1)) n c2 hmapany,
    createFile_eq_map_of_any l n c2 h, List.map_map]
  rw [show overwriteFile n c2 ∘ overwriteFile n c1 = overwriteFile n c2 from
    funext (overwrite_overwrite n c1 c2)]

theorem generateKustomizationFs_createFile (A : List FsTree) (c1 : String)
    (hA : A.any (fun e => e.isFileNamed "kustomization.yaml") = true) :
    generateKustomizationFs (createFile A "kustomization.yaml" c1)
      = (kustHeader ++ String.join (((walkDir "" A).filter
          (fun r => r != "kustomization.yaml")).map resourceLine),
         createFile A "kustomization.yaml"
           (kustHeader ++ String.join (((walkDir "" A).filter
             (fun r => r != "kustomization.yaml")).map resourceLine))) := by
  simp only [generateKustomizationFs]
  rw [createFile_createFile A "kustomization.yaml" c1 "" hA]
  rw [filter_walkDir_createFile]
  rw [createFile_createFile A "kustomization.yaml" "" _ hA]

/-- C6: running the kustomization synthesizer twice in a row over the
same directory tree is idempotent: the second run excludes the file
written by the first and regenerates byte-identical contents, leaving
the tree unchanged. -/
theorem generateKustomization_idempotent (entries : List FsTree) :
    generateKustomizationFs ((generateKustomizationFs entries).2) =
      generateKustomizationFs entries := by
  have hunfold : generateKustomizationFs entries =
      (kustHeader ++ String.join (((walkDir ""
          (createFile entries "kustomization.yaml" "")).filter
          (fun r => r != "kustomization.yaml")).map resourceLine),
       createFile (createFile entries "kustomization.yaml" "")
         "kustomization.yaml"
         (kustHeader ++ String.join (((walkDir ""
            (createFile entries "kustomization.yaml" "")).filter
            (fun r => r != "kustomization.yaml")).map resourceLine))) := rfl
  rw [hunfold]
  exact generateKustomizationFs_createFile
    (createFile entries "kustomization.yaml" "")
    (kustHeader ++ String.join (((walkDir ""
      (createFile entries "kustomization.yaml" "")).filter
      (fun r => r != "kustomization.yaml")).map resourceLine))
    (createFile_hasFile entries "kustomization.yaml" "")

/-! ## C1: credential redaction in `execCommand` log lines

The redaction replaces the exact substring `--password <secret>`; the
lemmas below show this masking is complete for that flag position, and
the counterexample shows the secret leaks verbatim from any other
position. -/

theorem infix_append_cases {α : Type} (l a b : List α) (h : l <:+: a ++ b) :
    l <:+: a ∨ l <:+: b
      ∨ ∃ u v, l = u ++ v ∧ u ≠ [] ∧ v ≠ [] ∧ u <:+ a ∧ v <+: b := by
  obtain ⟨p, q, hpq⟩ := h
  rw [List.append_assoc] at hpq
  rcases List.append_eq_append_iff.mp hpq with ⟨a', ha1, ha2⟩ | ⟨c', hc1, hc2⟩
  · rcases List.append_eq_append_iff.mp ha2 with ⟨a2, hb1, hb2⟩ | ⟨c2, hd1, hd2⟩
    · left
      exact ⟨p, a2, by rw [ha1, hb1, List.append_assoc]⟩
    · by_cases ha0 : a' = []
      · right
        left
        refine ⟨[], q, ?_⟩
        rw [ha0] at hd1
        rw [hd2, hd1]
        simp
      · by_cases hc20 : c2 = []
        · left
          refine ⟨p, [], ?_⟩
          rw [hc20, List.append_nil] at hd1
          rw [ha1, hd1]
          simp
        · right
          right
          exact ⟨a', c2, hd1, ha0, hc20, ⟨p, ha1.symm⟩, ⟨q, hd2.symm⟩⟩
  · right
    left
    exact ⟨c', q, by rw [hc2, List.append_assoc]⟩

theorem pattern_cons (S : List Char) :
    pwFlag ++ S = '-' :: (("-password ").data ++ S) := by
  rw [show pwFlag = '-' :: ("-password ").data from by decide]
  rfl

theorem pattern_length (S : List Char) :
    (pwFlag ++ S).length = 11 + S.length := by
  rw [List.length_append]
  rw [show pwFlag.length = 11 from by decide]

theorem pattern_ne_nil (S : List Char) : pwFlag ++ S ≠ [] := by
  rw [pattern_cons]
  exact List.cons_ne_nil _ _

theorem star_not_mem_pattern (S : List Char) (hstar : '*' ∉ S) :
    '*' ∉ pwFlag ++ S := by
  intro hm
  rcases List.mem_append.mp hm with h | h
  · exact absurd h (by decide)
  · exact hstar h

theorem pattern_not_infix_mask (S : List Char) (hne : S ≠ []) (hstar : '*' ∉ S) :
    ¬ (pwFlag ++ S) <:+: maskL := by
  rintro ⟨p, q, hpq⟩
  have hS1 : 1 ≤ S.length := List.length_pos.mpr hne
  have hlen : p.length + (11 + S.length) + q.length = 16 := by
    have h0 := congrArg List.length hpq
    rw [List.length_append, List.length_append, pattern_length,
      show maskL.length = 16 from by decide] at h0
    exact h0
  have hdrop : (pwFlag ++ S) ++ q = maskL.drop p.length := by
    have h2 := congrArg (List.drop p.length) hpq
    rwa [List.append_assoc, List.drop_left] at h2
  have hpw : pwFlag <+: maskL.drop p.length := by
    rw [← hdrop, List.append_assoc]
    exact List.prefix_append _ _
  have hk : p.length = 0 ∨ p.length = 1 ∨ p.length = 2 ∨ p.length = 3
      ∨ p.length = 4 := by omega
  rcases hk with h | h | h | h | h
  · have hp : p = [] := List.length_eq_zero.mp h
    subst hp
    rw [h] at hdrop
    rw [List.drop_zero, show maskL = pwFlag ++ ("*****").data from by decide,
      List.append_assoc] at hdrop
    have hS : S ++ q = ("*****").data := by
      have := List.append_cancel_left hdrop
      exact this
    obtain ⟨c0, S', rfl⟩ := List.exists_cons_of_ne_nil hne
    rw [List.cons_append] at hS
    injection hS with hc0 _
    exact hstar (hc0 ▸ List.mem_cons_self _ _)
  · rw [h] at hpw
    exact absurd hpw (by decide)
  · rw [h] at hpw
    exact absurd hpw (by decide)
  · rw [h] at hpw
    exact absurd hpw (by decide)
  · rw [h] at hpw
    exact absurd hpw (by decide)

theorem mask_suffix_not_prefix (S u : List Char) (hstar : '*' ∉ S)
    (husuf : u <:+ maskL) (hu : u ≠ []) : ¬ u <+: (pwFlag ++ S) := by
  intro hpre
  obtain ⟨g, hg⟩ := husuf
  have hvd : u = maskL.drop g.length := by
    rw [← hg, List.drop_left]
  subst hvd
  have hgl : g.length ≤ 15 := by
    have hlen := congrArg List.length hg
    rw [List.length_append, show maskL.length = 16 from by decide] at hlen
    have hup : 0 < (maskL.drop g.length).length := List.length_pos.mpr hu
    omega
  have hsplit : g.length = 0
      ∨ (g.length = 1 ∨ g.length = 2 ∨ g.length = 3 ∨ g.length = 4 ∨ g.length = 5)
      ∨ (g.length = 6 ∨ g.length = 7 ∨ g.length = 8 ∨ g.length = 9 ∨ g.length = 10
        ∨ g.length = 11 ∨ g.length = 12 ∨ g.length = 13 ∨ g.length = 14
        ∨ g.length = 15) := by omega
  rcases hsplit with h0 | hlow | hhigh
  · rw [h0] at hpre
    have hm : '*' ∈ pwFlag ++ S := hpre.subset (by decide)
    exact star_not_mem_pattern S hstar hm
  · rcases hlow with h | h | h | h | h <;> rw [h] at hpre <;>
      exact absurd
        (List.prefix_of_prefix_length_le (List.prefix_append _ _) hpre (by decide))
        (by decide)
  · rcases hhigh with h | h | h | h | h | h | h | h | h | h <;> rw [h] at hpre <;>
      exact absurd
        (List.prefix_of_prefix_length_le hpre (List.prefix_append _ _) (by decide))
        (by decide)

theorem common_affix_prefix (S b : List Char) (hstar : '*' ∉ S)
    (hbm : b <+: maskL) (hbs : b <:+ (pwFlag ++ S)) :
    b <+: (pwFlag ++ S) := by
  by_cases hsb : '*' ∈ b
  · exact absurd (hbs.subset hsb) (star_not_mem_pattern S hstar)
  · have hb11 : b.length ≤ 11 := by
      by_contra hgt
      push_neg at hgt
      have htake : (maskL.take 12) <+: b :=
        List.prefix_of_prefix_length_le (List.take_prefix _ _) hbm (by
          rw [show (maskL.take 12).length = 12 from by decide]
          omega)
      exact hsb (htake.subset (by decide))
    have hbpw : b <+: pwFlag :=
      List.prefix_of_prefix_length_le hbm (by decide) (by
        rw [show pwFlag.length = 11 from by decide]
        exact hb11)
    exact hbpw.trans (List.prefix_append _ _)

theorem goRAF_nil (f : Nat) (old new : List Char) :
    goReplaceAllFuel (f + 1) [] old new = [] := rfl

theorem goRAF_pos (f : Nat) (c : Char) (rest old new : List Char)
    (hm : old <+: c :: rest) :
    goReplaceAllFuel (f + 1) (c :: rest) old new
      = new ++ goReplaceAllFuel f ((c :: rest).drop old.length) old new := by
  simp [goReplaceAllFuel, hm]

theorem goRAF_neg (f : Nat) (c : Char) (rest old new : List Char)
    (hm : ¬ old <+: c :: rest) :
    goReplaceAllFuel (f + 1) (c :: rest) old new
      = c :: goReplaceAllFuel f rest old new := by
  simp [goReplaceAllFuel, hm]

theorem goRAF_prefix_structure (S : List Char) (hstar : '*' ∉ S) :
    ∀ (fuel : Nat) (t w : List Char), t.length < fuel →
      w <:+ (pwFlag ++ S) →
      w <+: goReplaceAllFuel fuel t (pwFlag ++ S) maskL →
      w <+: t ∨ ∃ u0 b, w = u0 ++ b ∧ b ≠ [] ∧ b <+: maskL
        ∧ (u0 ++ (pwFlag ++ S)) <+: t := by
  intro fuel
  induction fuel with
  | zero =>
    intro t w h
    omega
  | succ f ih =>
    intro t w hlen hsuf hpre
    cases t with
    | nil =>
      left
      rw [goRAF_nil] at hpre
      rw [List.prefix_nil.mp hpre]
    | cons c rest =>
      by_cases hm : (pwFlag ++ S) <+: (c :: rest)
      · rw [goRAF_pos f c rest _ _ hm] at hpre
        obtain ⟨t1, ht1⟩ := hpre
        rcases List.append_eq_append_iff.mp ht1 with ⟨a2, ha1, _⟩ | ⟨c2, hc1, _⟩
        · by_cases hw0 : w = []
          · left
            rw [hw0]
            exact List.nil_prefix
          · right
            exact ⟨[], w, by simp, hw0, ⟨a2, ha1.symm⟩, by simpa using hm⟩
        · exfalso
          have hsm : '*' ∈ w := by
            rw [hc1]
            exact List.mem_append_left _ (by decide)
          exact star_not_mem_pattern S hstar (hsuf.subset hsm)
      · rw [goRAF_neg f c rest _ _ hm] at hpre
        cases w with
        | nil =>
          left
          exact List.nil_prefix
        | cons w0 w' =>
          rw [List.cons_prefix_cons] at hpre
          obtain ⟨hw0, hw'⟩ := hpre
          have hsuf' : w' <:+ (pwFlag ++ S) := by
            obtain ⟨g, hg⟩ := hsuf
            exact ⟨g ++ [w0], by simpa [List.append_assoc] using hg⟩
          rcases ih rest w' (by simp at hlen; omega) hsuf' hw' with
            hl | ⟨u0, b, hw, hb, hbm, hup⟩
          · left
            rw [List.cons_prefix_cons]
            exact ⟨hw0, hl⟩
          · right
            refine ⟨w0 :: u0, b, by simp [hw], hb, hbm, ?_⟩
            rw [List.cons_append, List.cons_prefix_cons]
            exact ⟨hw0, hup⟩

theorem goRAF_no_pattern (S : List Char) (hstar : '*' ∉ S) (hne : S ≠ []) :
    ∀ (fuel : Nat) (s : List Char), s.length < fuel →
      ¬ (pwFlag ++ S) <:+: goReplaceAllFuel fuel s (pwFlag ++ S) maskL := by
  intro fuel
  induction fuel with
  | zero =>
    intro s h
    omega
  | succ f ih =>
    intro s hlen hinf
    cases s with
    | nil =>
      rw [goRAF_nil] at hinf
      obtain ⟨p, q, hpq⟩ := hinf
      have h0 := congrArg List.length hpq
      rw [List.length_append, List.length_append, pattern_length] at h0
      simp at h0
    | cons c rest =>
      by_cases hm : (pwFlag ++ S) <+: (c :: rest)
      · rw [goRAF_pos f c rest _ _ hm] at hinf
        rcases infix_append_cases _ _ _ hinf with
          hA | hR | ⟨u, v, heq, hu, _, husuf, _⟩
        · exact pattern_not_infix_mask S hne hstar hA
        · refine ih _ ?_ hR
          have hp1 : 1 ≤ (pwFlag ++ S).length := by
            rw [pattern_length]
            omega
          rw [List.length_drop]
          simp only [List.length_cons] at hlen ⊢
          omega
        · exact mask_suffix_not_prefix S u hstar husuf hu ⟨v, heq.symm⟩
      · rw [goRAF_neg f c rest _ _ hm] at hinf
        rcases infix_cons_split hinf with hp | hi
        · rw [pattern_cons S, List.cons_prefix_cons] at hp
          obtain ⟨hc, htailpre⟩ := hp
          have hsuf' : ("-password ").data ++ S <:+ (pwFlag ++ S) := by
            refine ⟨['-'], ?_⟩
            rw [pattern_cons S]
            rfl
          rcases goRAF_prefix_structure S hstar f rest _
              (by simp only [List.length_cons] at hlen; omega) hsuf' htailpre with
            hl | ⟨u0, b, hw, hb, hbm, hup⟩
          · apply hm
            rw [pattern_cons S, ← hc, List.cons_prefix_cons]
            exact ⟨rfl, hl⟩
          · have hbsuf : b <:+ (pwFlag ++ S) := by
              refine ⟨'-' :: u0, ?_⟩
              rw [pattern_cons S, hw]
              simp
            have hbp : b <+: (pwFlag ++ S) := common_affix_prefix S b hstar hbm hbsuf
            apply hm
            obtain ⟨r2, hr2⟩ := hup
            obtain ⟨r3, hr3⟩ := hbp
            rw [pattern_cons S, hw, ← hc, List.cons_prefix_cons]
            refine ⟨rfl, ?_⟩
            rw [← hr2, List.append_assoc]
            exact ⟨r3 ++ r2, by rw [← hr3]; simp [List.append_assoc]⟩
        · exact ih rest (by simp only [List.length_cons] at hlen; omega) hi

theorem goReplaceAll_eq_fuel (s old new : List Char) (h : old ≠ []) :
    goReplaceAll s old new = goReplaceAllFuel (s.length + 1) s old new := by
  rw [goReplaceAll, if_neg]
  simp [h]

/-- C1 (amended): the process runner's redaction is complete for the flag
position: for every argument list and every non-empty secret not
containing `*`, the log line contains no occurrence of the substring
`--password <secret>` — every such occurrence is replaced by the mask.
The secret may still appear verbatim at other positions (see the
counterexample), so the original claim that no log line ever contains
the secret does not hold. -/
theorem execLog_masks_password_flag (args : List (List Char)) (S : List Char)
    (hne : S ≠ []) (hstar : '*' ∉ S) :
    ¬ (pwFlag ++ S) <:+: execLog ("helm").data args S := by
  intro hinf
  rw [execLog,
    show ("helm").data ++ ' ' :: goReplaceAll (joinSpace args) (pwFlag ++ S) maskL
      = ("helm ").data ++ goReplaceAll (joinSpace args) (pwFlag ++ S) maskL from by
    rw [show ("helm ").data = ("helm").data ++ [' '] from by decide]
    simp] at hinf
  rcases infix_append_cases _ _ _ hinf with h5 | hX | ⟨u, v, heq, hu, _, husuf, _⟩
  · have hl := h5.length_le
    rw [pattern_length, show ("helm ").data.length = 5 from by decide] at hl
    have hS1 : 1 ≤ S.length := List.length_pos.mpr hne
    omega
  · rw [goReplaceAll_eq_fuel _ _ _ (pattern_ne_nil S)] at hX
    exact goRAF_no_pattern S hstar hne _ _ (by omega) hX
  · obtain ⟨u0, u', hu0⟩ := List.exists_cons_of_ne_nil hu
    have hupre : u <+: (pwFlag ++ S) := ⟨v, heq.symm⟩
    rw [hu0, pattern_cons S, List.cons_prefix_cons] at hupre
    obtain ⟨hu0c, _⟩ := hupre
    have hmem : u0 ∈ ("helm ").data := by
      refine husuf.subset ?_
      rw [hu0]
      exact List.mem_cons_self _ _
    rw [hu0c] at hmem
    exact absurd hmem (by decide)

/-- Witness for C1's amended theorem at the concrete secret `hunter2`. -/
theorem execLog_masks_password_flag_witness :
    ("hunter2").data ≠ [] ∧ '*' ∉ ("hunter2").data
    ∧ ¬ (pwFlag ++ ("hunter2").data) <:+:
        execLog ("helm").data [("--password").data, ("hunter2").data]
          ("hunter2").data :=
  ⟨by decide, by decide,
   execLog_masks_password_flag [("--password").data, ("hunter2").data]
     ("hunter2").data (by decide) (by decide)⟩

/-- C1 counterexample: with the secret `hunter2` configured as the
password and also occurring as the username argument, the redacted log
line still contains the secret verbatim — refuting the claim that, for
every argument list and position, no log line contains the secret. -/
theorem execLog_leaks_secret_counterexample :
    ("hunter2").data <:+: execLog ("helm").data
      [("--username").data, ("hunter2").data,
       ("--password").data, ("hunter2").data]
      ("hunter2").data := by
  decide

end Helmt
